import Mathlib

/-!
Verification of the SSH-config text engine of the `ssh-manager` VS Code
extension (`src/extension.ts`).  The engine consists of three operations on
the `~/.ssh/config` document:

* `parseGitHubSSHIdentities` (here `scanLines` / `scanStr` / `scanFile`);
* `SSHConnectionProvider.isActiveIdentity` (here `isActiveLines` / ...);
* `setActiveGitHubIdentity` (here `setActiveLines` / ...);

plus the merge of the managed list with the discovered identities performed
by `SSHConnectionProvider.getChildren` (here `mergeIdentities`).

The JavaScript string primitives used by the source (`String.prototype.trim`,
`toLowerCase`, `startsWith`, `split(/\r?\n/)`, `split(/\s+/)[1]`,
`Array.prototype.join('\n')`, `path.basename`) are modelled below on
`List Char` for the ASCII fragment that the configuration format uses.
A file that may be absent is modelled as `Option String` (`none` = the file
does not exist, mirroring `fs.existsSync` returning false).
-/

/-- Whitespace for the purposes of JS `trim` and the `/\s+/` split
(ASCII fragment: space, tab, newline, carriage return, vertical tab,
form feed). -/
def jsWS (c : Char) : Bool :=
  c = ' ' || c = '\t' || c = '\n' || c = '\r' || c = '\x0b' || c = '\x0c'

/-- Drop trailing whitespace of a character list. -/
def trimRightCs (l : List Char) : List Char :=
  (l.reverse.dropWhile jsWS).reverse

/-- Drop leading and trailing whitespace (model of `String.prototype.trim`). -/
def trimCs (l : List Char) : List Char :=
  trimRightCs (l.dropWhile jsWS)

/-- Model of `line.trim()`. -/
def jsTrim (s : String) : String :=
  ⟨trimCs s.data⟩

/-- Model of `s.toLowerCase()` (ASCII letters). -/
def lowerStr (s : String) : String :=
  ⟨s.data.map Char.toLower⟩

/-- Model of `s.startsWith(p)`. -/
def strStartsWith (s p : String) : Bool :=
  p.data.isPrefixOf s.data

/-- Model of `line.trim().split(/\s+/)[1]`: the second whitespace-delimited
token of the trimmed line, `none` when the trimmed line has fewer than two
tokens (JS yields `undefined` there). -/
def arg1 (l : String) : Option String :=
  let t := (jsTrim l).data
  let rest := (t.dropWhile (fun c => !jsWS c)).dropWhile jsWS
  if rest.isEmpty then none else some ⟨rest.takeWhile (fun c => !jsWS c)⟩

/-- Split a character list at every `'\n'` (auxiliary for `split(/\r?\n/)`).
Splitting the empty list yields one empty piece, as JS `split` does. -/
def splitNl : List Char → List (List Char)
  | [] => [[]]
  | c :: t =>
    if c = '\n' then [] :: splitNl t
    else
      match splitNl t with
      | [] => [[c]]
      | p :: ps => (c :: p) :: ps

/-- Remove one trailing `'\r'`, if present. -/
def stripTrailCR (l : List Char) : List Char :=
  if l.getLast? = some '\r' then l.dropLast else l

/-- Remove one trailing `'\r'` from every piece except the last one: a piece
that was terminated by `'\n'` in the original text had that optional `'\r'`
consumed by the `/\r?\n/` separator, the final piece did not. -/
def stripCRs : List (List Char) → List (List Char)
  | [] => []
  | [p] => [p]
  | p :: q :: ps => stripTrailCR p :: stripCRs (q :: ps)

/-- Model of `text.split(/\r?\n/)`. -/
def splitLines (s : String) : List String :=
  (stripCRs (splitNl s.data)).map (fun l => (⟨l⟩ : String))

/-- Join character-list pieces with `'\n'` (auxiliary for `join('\n')`). -/
def joinNl : List (List Char) → List Char
  | [] => []
  | [p] => p
  | p :: q :: ps => p ++ '\n' :: joinNl (q :: ps)

/-- Model of `lines.join('\n')`. -/
def joinLines (ls : List String) : String :=
  ⟨joinNl (ls.map String.data)⟩

/-- Model of Node `path.basename` for slash-separated paths: the last path
segment, ignoring trailing separators. -/
def basename (p : String) : String :=
  ⟨((p.data.reverse.dropWhile (fun c => c = '/')).takeWhile (fun c => !(c = '/'))).reverse⟩

/-- The line classifier `trimmed.toLowerCase().startsWith('host ')`. -/
def isHostLine (l : String) : Bool :=
  strStartsWith (lowerStr (jsTrim l)) ("host ")

/-- The line classifier `trimmed.toLowerCase().startsWith('identityfile')`. -/
def isIdLine (l : String) : Bool :=
  strStartsWith (lowerStr (jsTrim l)) ("identityfile")

/-- The update of the `inGitHubHost` flag performed by each loop iteration of
`isActiveIdentity` and `setActiveGitHubIdentity`:
`if (trimmed.toLowerCase().startsWith('host '))
   inGitHubHost = trimmed.split(/\s+/)[1] === 'github.com';`. -/
def hostAfter (b : Bool) (l : String) : Bool :=
  if isHostLine l then arg1 l == some ("github.com") else b

/-- The literal `'Host github.com'` line that `setActiveGitHubIdentity`
appends. -/
def ghHostLine : String := "Host github.com"

/-- The literal replacement line `` `    IdentityFile ${identityFile}` ``. -/
def newIdLine (k : String) : String := "    IdentityFile " ++ k

/-- The `SSHConnection` record of `extension.ts` (optional fields are
`Option`s; a JS `undefined` is `none`). -/
structure SSHConnection where
  name : String
  host : String
  user : String
  port : Option Nat
  keyFile : Option String
  gitName : Option String
  gitEmail : Option String
  password : Option String

deriving instance DecidableEq for SSHConnection

/-- The discovered record that `parseGitHubSSHIdentities` pushes for a
github-scoped identity file. -/
def mkDiscovered (i : String) : SSHConnection :=
  ⟨basename i, "github.com", "git", some 22, some i, none, none, none⟩

/-! ### `setActiveGitHubIdentity` -/

/-- The rewrite loop of `setActiveGitHubIdentity`: walk the lines carrying
the `inGitHubHost` flag `b`; at the first line with
`inGitHubHost && trimmed.toLowerCase().startsWith('identityfile')` replace
the line by `` `    IdentityFile ${k}` `` and stop (`found = true; break`).
Returns `none` when no line matched (`found` stayed false). -/
def replaceFirstId (k : String) : Bool → List String → Option (List String)
  | _, [] => none
  | b, l :: ls =>
    if hostAfter b l && isIdLine l then some (newIdLine k :: ls)
    else (replaceFirstId k (hostAfter b l) ls).map (fun r => l :: r)

/-- `setActiveGitHubIdentity` on the line sequence of an existing file:
rewrite the first matching line, otherwise append the two-line block
`['Host github.com', '    IdentityFile k']`. -/
def setActiveLines (k : String) (lines : List String) : List String :=
  match replaceFirstId k false lines with
  | some ls => ls
  | none => lines ++ [ghHostLine, newIdLine k]

/-- `setActiveGitHubIdentity` on the raw document text: split on `/\r?\n/`,
mutate, join with `'\n'`. -/
def setActiveStr (k s : String) : String :=
  joinLines (setActiveLines k (splitLines s))

/-- `setActiveGitHubIdentity` at the file level: when the file does not
exist (`!fs.existsSync`) the function returns without writing anything. -/
def setActiveFile (k : String) : Option String → Option String
  | none => none
  | some s => some (setActiveStr k s)

/-! ### `isActiveIdentity` -/

/-- The scan loop of `isActiveIdentity`: at the first line with
`inGitHubHost && trimmed.toLowerCase().startsWith('identityfile')` return
`trimmed.split(/\s+/)[1] === connection.keyFile`; return false when the
loop falls through. -/
def isActiveAux (kf : Option String) : Bool → List String → Bool
  | _, [] => false
  | b, l :: ls =>
    if hostAfter b l && isIdLine l then arg1 l == kf
    else isActiveAux kf (hostAfter b l) ls

/-- `isActiveIdentity` on a line sequence. -/
def isActiveLines (kf : Option String) (lines : List String) : Bool :=
  isActiveAux kf false lines

/-- `isActiveIdentity` on the raw document text. -/
def isActiveStr (kf : Option String) (s : String) : Bool :=
  isActiveLines kf (splitLines s)

/-- `isActiveIdentity` at the file level: a missing file yields false. -/
def isActiveFile (kf : Option String) : Option String → Bool
  | none => false
  | some s => isActiveStr kf s

/-! ### `parseGitHubSSHIdentities` -/

/-- The mutable state of the `parseGitHubSSHIdentities` loop:
`currentHost`, `identityFile`, and the `connections` array built so far. -/
structure ScanSt where
  currentHost : Option String
  identityFile : Option String
  acc : List SSHConnection

deriving instance DecidableEq for ScanSt

/-- The record emitted at a block boundary:
`if (currentHost === 'github.com' && identityFile) connections.push(...)`. -/
def pendingRecord (st : ScanSt) : List SSHConnection :=
  match st.identityFile with
  | some i => if st.currentHost = some ("github.com") then [mkDiscovered i] else []
  | none => []

/-- One iteration of the `parseGitHubSSHIdentities` loop. -/
def scanStep (st : ScanSt) (l : String) : ScanSt :=
  if isHostLine l then
    { currentHost := arg1 l, identityFile := none, acc := st.acc ++ pendingRecord st }
  else if isIdLine l && st.currentHost == some ("github.com") then
    { st with identityFile := arg1 l }
  else st

/-- Run the scan loop from a given state and apply the end-of-file flush
(`// Add last entry if file ends with github.com`). -/
def scanFrom (st : ScanSt) (lines : List String) : List SSHConnection :=
  let f := lines.foldl scanStep st
  f.acc ++ pendingRecord f

/-- `parseGitHubSSHIdentities` on a line sequence. -/
def scanLines (lines : List String) : List SSHConnection :=
  scanFrom ⟨none, none, []⟩ lines

/-- `parseGitHubSSHIdentities` on the raw document text. -/
def scanStr (s : String) : List SSHConnection :=
  scanLines (splitLines s)

/-- `parseGitHubSSHIdentities` at the file level: a missing file yields the
empty list. -/
def scanFile : Option String → List SSHConnection
  | none => []
  | some s => scanStr s

/-! ### The merge of `SSHConnectionProvider.getChildren` -/

/-- The body of the dedup loop of `getChildren`:
`if (!all.find(e => e.keyFile === c.keyFile)) all.push(c);`. -/
def mergeStep (all : List SSHConnection) (c : SSHConnection) : List SSHConnection :=
  if all.any (fun e => e.keyFile == c.keyFile) then all else all ++ [c]

/-- The merged view of `getChildren`: start from a copy of the managed
`connections`, then append each discovered record whose `keyFile` is not
already present. -/
def mergeIdentities (managed discovered : List SSHConnection) : List SSHConnection :=
  discovered.foldl mergeStep managed

/-! ### Specification-side definitions

The following definitions restate, in combinator form, what the engine's
stateful loops compute; the refinement theorems below prove them equal to
the loop implementations.  `claimSetActive` and `claimIsActive` instead
follow the claim texts of C1 and C4 literally (first `IdentityFile` line of
the *first* github-scoped block); they are used to exhibit where those
claims diverge from the code. -/

/-- The value of the `inGitHubHost` flag at each line (after that line's
`Host` update), starting from flag `b`. -/
def ghStates : Bool → List String → List Bool
  | _, [] => []
  | b, l :: ls => hostAfter b l :: ghStates (hostAfter b l) ls

/-- Each line paired with its `inGitHubHost` flag. -/
def ghAnnot (b : Bool) (lines : List String) : List (String × Bool) :=
  lines.zip (ghStates b lines)

/-- Index of the first element satisfying `q`. -/
def findIdxP {α : Type} (q : α → Bool) : List α → Option Nat
  | [] => none
  | a :: l => if q a then some 0 else (findIdxP q l).map (fun i => i + 1)

/-- A github-scoped `IdentityFile` line (the rewrite/short-circuit target). -/
def ghIdHit (p : String × Bool) : Bool :=
  p.2 && isIdLine p.1

/-- Index of the first github-scoped `IdentityFile` line of the document. -/
def firstGhIdIdx (lines : List String) : Option Nat :=
  findIdxP ghIdHit (ghAnnot false lines)

/-- Specification form of `setActiveGitHubIdentity`: replace the first
github-scoped `IdentityFile` line of the document, in whichever
github-scoped block it lies; append the fresh block when no such line
exists. -/
def setActiveSpec (k : String) (lines : List String) : List String :=
  match firstGhIdIdx lines with
  | some i => lines.set i (newIdLine k)
  | none => lines ++ [ghHostLine, newIdLine k]

/-- Specification form of `isActiveIdentity`: compare the argument of the
first github-scoped `IdentityFile` line of the document against the
candidate key file; false when no such line exists. -/
def isActiveSpec (kf : Option String) (lines : List String) : Bool :=
  match (ghAnnot false lines).find? ghIdHit with
  | some p => arg1 p.1 == kf
  | none => false

/-- Start index of the first github-scoped block (its `Host` line). -/
def firstGithubBlockStart (lines : List String) : Option Nat :=
  findIdxP (fun l => isHostLine l && (arg1 l == some ("github.com"))) lines

/-- Body of the first github-scoped block: the lines after its `Host` line
up to (excluding) the next `Host` line. -/
def firstGithubBlockBody (lines : List String) : Option (List String) :=
  (firstGithubBlockStart lines).map
    (fun i => (lines.drop (i + 1)).takeWhile (fun l => !(isHostLine l)))

/-- Claim C1 taken literally: rewrite the first `IdentityFile` line inside
the FIRST github-scoped block; append when that block is missing or has no
`IdentityFile` line. -/
def claimSetActive (k : String) (lines : List String) : List String :=
  match firstGithubBlockStart lines with
  | none => lines ++ [ghHostLine, newIdLine k]
  | some i =>
    match findIdxP isIdLine ((lines.drop (i + 1)).takeWhile (fun l => !(isHostLine l))) with
    | none => lines ++ [ghHostLine, newIdLine k]
    | some j => lines.set (i + 1 + j) (newIdLine k)

/-- Claim C4 taken literally: true exactly when the first `IdentityFile`
line of the FIRST github-scoped block exists and its argument equals the
candidate. -/
def claimIsActive (k : String) (lines : List String) : Bool :=
  match firstGithubBlockBody lines with
  | none => false
  | some body =>
    match body.find? isIdLine with
    | none => false
    | some l => arg1 l == some k

/-- The value of the scan loop's `identityFile` variable after a run of
lines containing no `Host` line, starting from value `i` inside a
github-scoped block: each `IdentityFile` line overwrites it. -/
def trackId (i : Option String) (body : List String) : Option String :=
  body.foldl (fun o l => if isIdLine l then arg1 l else o) i

/-- The argument of the last `IdentityFile` line of a block body (`none`
when the body has no such line, or its last such line has no argument). -/
def lastIdArg (body : List String) : Option String :=
  match body.reverse.find? isIdLine with
  | some l => arg1 l
  | none => none

/-! ### Helper lemmas about the line classifiers -/

theorem isPrefixOf_ne_head {c d : Char} {p q l : List Char} (hne : c ≠ d)
    (hp : List.isPrefixOf (c :: p) l = true) : List.isPrefixOf (d :: q) l = false := by
  cases l with
  | nil => simp [List.isPrefixOf] at hp
  | cons e t =>
    simp only [List.isPrefixOf, Bool.and_eq_true, beq_iff_eq] at hp
    obtain ⟨rfl, -⟩ := hp
    simp only [List.isPrefixOf, Bool.and_eq_false_iff, beq_eq_false_iff_ne, ne_eq]
    exact Or.inl (fun hdc => hne hdc.symm)

theorem isPrefixOf_self_append {α : Type} [BEq α] [LawfulBEq α] (l r : List α) :
    List.isPrefixOf l (l ++ r) = true := by
  induction l with
  | nil => simp [List.isPrefixOf]
  | cons a l ih => simp [List.isPrefixOf, ih]

/-- A line recognised as an `IdentityFile` directive is not recognised as a
`Host` line (the two keywords differ at the first character). -/
theorem not_host_of_idline {l : String} (h : isIdLine l = true) : isHostLine l = false := by
  unfold isIdLine strStartsWith at h
  unfold isHostLine strStartsWith
  have h' : List.isPrefixOf ('i' :: "dentityfile".data) (lowerStr (jsTrim l)).data = true := h
  exact isPrefixOf_ne_head (by decide) h'

/-- An `IdentityFile` line leaves the `inGitHubHost` flag unchanged. -/
theorem hostAfter_of_idline {b : Bool} {l : String} (h : isIdLine l = true) :
    hostAfter b l = b := by
  simp [hostAfter, not_host_of_idline h]

theorem dropWhile_append_nonsat {α : Type} (p : α → Bool) (xs : List α) (c : α) (ys : List α)
    (hc : p c = false) : ∃ zs, List.dropWhile p (xs ++ c :: ys) = zs ++ c :: ys := by
  induction xs with
  | nil => exact ⟨[], by simp [List.dropWhile_cons, hc]⟩
  | cons x xs ih =>
    by_cases hx : p x = true
    · simpa [List.dropWhile_cons, hx] using ih
    · exact ⟨x :: xs, by simp [List.dropWhile_cons, hx]⟩

/-- Trimming the replacement line `    IdentityFile k` always leaves the
keyword `IdentityFile` as a prefix, whatever `k` is. -/
theorem jsTrim_newIdLine (k : String) :
    ∃ zs, (jsTrim (newIdLine k)).data = "IdentityFile".data ++ zs := by
  have hdata : (newIdLine k).data
      = ' ' :: ' ' :: ' ' :: ' ' :: ('I' :: ("dentityFile ".data ++ k.data)) := rfl
  have h1 : List.dropWhile jsWS ((newIdLine k).data)
      = 'I' :: ("dentityFile ".data ++ k.data) := by
    have dws : jsWS ' ' = true := by decide
    have dI : ¬ (jsWS 'I' = true) := by decide
    rw [hdata, List.dropWhile_cons, if_pos dws, List.dropWhile_cons, if_pos dws,
      List.dropWhile_cons, if_pos dws, List.dropWhile_cons, if_pos dws,
      List.dropWhile_cons, if_neg dI]
  have h2 : (jsTrim (newIdLine k)).data
      = trimRightCs ('I' :: ("dentityFile ".data ++ k.data)) := by
    show trimCs (newIdLine k).data = _
    rw [trimCs, h1]
  have hrev : ('I' :: ("dentityFile ".data ++ k.data)).reverse
      = (k.data.reverse ++ [' ']) ++ ('e' :: "liFytitnedI".data) := by
    have : "dentityFile ".data = "dentityFile".data ++ [' '] := by decide
    rw [this]
    simp [List.reverse_append, List.append_assoc]
  obtain ⟨zs, hz⟩ :=
    dropWhile_append_nonsat jsWS (k.data.reverse ++ [' ']) 'e' ("liFytitnedI".data) (by decide)
  refine ⟨zs.reverse, ?_⟩
  rw [h2, trimRightCs, hrev, hz]
  simp [List.reverse_append]

theorem isIdLine_newIdLine (k : String) : isIdLine (newIdLine k) = true := by
  obtain ⟨zs, hz⟩ := jsTrim_newIdLine k
  unfold isIdLine strStartsWith
  show List.isPrefixOf ("identityfile".data) (lowerStr (jsTrim (newIdLine k))).data = true
  have hlow : (lowerStr (jsTrim (newIdLine k))).data
      = "identityfile".data ++ zs.map Char.toLower := by
    show (jsTrim (newIdLine k)).data.map Char.toLower = _
    rw [hz, List.map_append]
    have : ("IdentityFile".data).map Char.toLower = "identityfile".data := by decide
    rw [this]
  rw [hlow]
  exact isPrefixOf_self_append _ _

theorem hostAfter_newIdLine (b : Bool) (k : String) : hostAfter b (newIdLine k) = b :=
  hostAfter_of_idline (isIdLine_newIdLine k)

theorem isHostLine_ghHostLine : isHostLine ghHostLine = true := by decide

theorem arg1_ghHostLine : arg1 ghHostLine = some ("github.com") := by decide

theorem isIdLine_ghHostLine : isIdLine ghHostLine = false := by decide

theorem hostAfter_ghHostLine (b : Bool) : hostAfter b ghHostLine = true := by
  simp [hostAfter, isHostLine_ghHostLine, arg1_ghHostLine]

/-! ### Lemmas about the `setActiveGitHubIdentity` rewrite loop -/

/-- The rewrite loop is stable: re-running it on its own output rewrites the
same line with the same content. -/
theorem replaceFirstId_idem (k : String) :
    ∀ (b : Bool) (ls ls' : List String), replaceFirstId k b ls = some ls' →
      replaceFirstId k b ls' = some ls' := by
  intro b ls
  induction ls generalizing b with
  | nil => intro ls' h; simp [replaceFirstId] at h
  | cons l t ih =>
    intro ls' h
    rw [replaceFirstId] at h
    by_cases hc : (hostAfter b l && isIdLine l) = true
    · rw [if_pos hc] at h
      obtain rfl : newIdLine k :: t = ls' := Option.some.inj h
      obtain ⟨hb', hid⟩ := Bool.and_eq_true _ _ |>.mp hc
      have hb : b = true := by rwa [hostAfter_of_idline hid] at hb'
      rw [replaceFirstId, if_pos (by simp [hostAfter_newIdLine, isIdLine_newIdLine, hb])]
    · rw [if_neg hc] at h
      obtain ⟨r, hr, hlr⟩ := Option.map_eq_some'.mp h
      subst hlr
      rw [replaceFirstId, if_neg hc, ih _ _ hr]
      rfl

/-- When the rewrite loop found nothing, appending the fresh block yields a
list on which the loop rewrites exactly the appended `IdentityFile` line
(with unchanged content). -/
theorem replaceFirstId_none_app (k : String) :
    ∀ (b : Bool) (ls : List String), replaceFirstId k b ls = none →
      replaceFirstId k b (ls ++ [ghHostLine, newIdLine k])
        = some (ls ++ [ghHostLine, newIdLine k]) := by
  intro b ls
  induction ls generalizing b with
  | nil =>
    intro _
    rw [List.nil_append, replaceFirstId,
      if_neg (by simp [hostAfter_ghHostLine, isIdLine_ghHostLine]),
      replaceFirstId, if_pos (by simp [hostAfter_newIdLine, isIdLine_newIdLine,
        hostAfter_ghHostLine])]
    rfl
  | cons l t ih =>
    intro h
    rw [replaceFirstId] at h
    by_cases hc : (hostAfter b l && isIdLine l) = true
    · rw [if_pos hc] at h; exact absurd h (by simp)
    · rw [if_neg hc] at h
      have ht : replaceFirstId k (hostAfter b l) t = none := by
        cases hrt : replaceFirstId k (hostAfter b l) t with
        | none => rfl
        | some r => rw [hrt] at h; exact absurd h (by simp)
      rw [List.cons_append, replaceFirstId, if_neg hc, ih _ ht]
      rfl

/-- Shape of a successful rewrite: exactly one line, an `IdentityFile` line,
is replaced by `    IdentityFile k`; every other line is untouched. -/
theorem replaceFirstId_shape (k : String) :
    ∀ (b : Bool) (ls ls' : List String), replaceFirstId k b ls = some ls' →
      ∃ i, i < ls.length ∧ isIdLine (ls.getD i "") = true
        ∧ ls' = ls.set i (newIdLine k) := by
  intro b ls
  induction ls generalizing b with
  | nil => intro ls' h; simp [replaceFirstId] at h
  | cons l t ih =>
    intro ls' h
    rw [replaceFirstId] at h
    by_cases hc : (hostAfter b l && isIdLine l) = true
    · rw [if_pos hc] at h
      obtain rfl : newIdLine k :: t = ls' := Option.some.inj h
      exact ⟨0, by simp, by simpa using (Bool.and_eq_true _ _ |>.mp hc).2, by simp⟩
    · rw [if_neg hc] at h
      obtain ⟨r, hr, hlr⟩ := Option.map_eq_some'.mp h
      subst hlr
      obtain ⟨i, hi, hid, rfl⟩ := ih _ _ hr
      exact ⟨i + 1, by simpa using hi, by simpa using hid, by simp⟩

/-- The rewrite loop, in combinator form: it rewrites the line at the first
index whose `inGitHubHost` annotation is set and which is an `IdentityFile`
line. -/
theorem replaceFirstId_eq_findIdx (k : String) :
    ∀ (b : Bool) (ls : List String),
      replaceFirstId k b ls
        = (findIdxP ghIdHit (ghAnnot b ls)).map (fun i => ls.set i (newIdLine k)) := by
  intro b ls
  induction ls generalizing b with
  | nil => rfl
  | cons l t ih =>
    rw [replaceFirstId]
    have hann : ghAnnot b (l :: t) = (l, hostAfter b l) :: ghAnnot (hostAfter b l) t := by
      simp [ghAnnot, ghStates]
    rw [hann, findIdxP]
    by_cases hc : (hostAfter b l && isIdLine l) = true
    · rw [if_pos hc, if_pos (by simpa [ghIdHit] using hc)]
      simp
    · rw [if_neg hc, if_neg (by simpa [ghIdHit] using hc), ih]
      cases findIdxP ghIdHit (ghAnnot (hostAfter b l) t) with
      | none => rfl
      | some i => simp

/-- The probe loop of `isActiveIdentity`, in combinator form: it compares
the candidate against the argument of the first github-scoped
`IdentityFile` line, and falls through to false when there is none. -/
theorem isActiveAux_eq_find (kf : Option String) :
    ∀ (b : Bool) (ls : List String),
      isActiveAux kf b ls
        = (match (ghAnnot b ls).find? ghIdHit with
           | some p => arg1 p.1 == kf
           | none => false) := by
  intro b ls
  induction ls generalizing b with
  | nil => rfl
  | cons l t ih =>
    rw [isActiveAux]
    have hann : ghAnnot b (l :: t) = (l, hostAfter b l) :: ghAnnot (hostAfter b l) t := by
      simp [ghAnnot, ghStates]
    rw [hann, List.find?_cons]
    by_cases hc : (hostAfter b l && isIdLine l) = true
    · rw [if_pos hc]
      have : ghIdHit (l, hostAfter b l) = true := by simpa [ghIdHit] using hc
      rw [this]
    · rw [if_neg hc]
      have : ghIdHit (l, hostAfter b l) = false := by
        simpa [ghIdHit] using hc
      rw [this, ih]

/-! ### Lemmas about the `parseGitHubSSHIdentities` loop -/

theorem scanStep_hostline (st : ScanSt) (l : String) (h : isHostLine l = true) :
    scanStep st l = ⟨arg1 l, none, st.acc ++ pendingRecord st⟩ := by
  simp [scanStep, h]

theorem scanStep_acc (h i : Option String) (A : List SSHConnection) (l : String) :
    scanStep ⟨h, i, A⟩ l
      = { scanStep ⟨h, i, []⟩ l with acc := A ++ (scanStep ⟨h, i, []⟩ l).acc } := by
  by_cases hh : isHostLine l = true
  · simp [scanStep, hh, pendingRecord]
  · by_cases hi : (isIdLine l && (h == some ("github.com"))) = true
    · simp [scanStep, hh, hi]
    · simp [scanStep, hh, hi]

theorem scanFold_acc :
    ∀ (ls : List String) (h i : Option String) (A : List SSHConnection),
      List.foldl scanStep ⟨h, i, A⟩ ls
        = { List.foldl scanStep ⟨h, i, []⟩ ls
            with acc := A ++ (List.foldl scanStep ⟨h, i, []⟩ ls).acc } := by
  intro ls
  induction ls with
  | nil => intro h i A; simp
  | cons l t ih =>
    intro h i A
    rw [List.foldl_cons, List.foldl_cons, scanStep_acc]
    rcases hst : scanStep ⟨h, i, []⟩ l with ⟨h', i', d⟩
    rw [ih h' i' (A ++ d), ih h' i' d]
    simp [List.append_assoc]

/-- Running the full loop from a shifted accumulator. -/
theorem scanFrom_acc (h i : Option String) (A : List SSHConnection) (ls : List String) :
    scanFrom ⟨h, i, A⟩ ls = A ++ scanFrom ⟨h, i, []⟩ ls := by
  unfold scanFrom
  rw [scanFold_acc]
  rcases List.foldl scanStep ⟨h, i, []⟩ ls with ⟨h', i', d⟩
  simp [pendingRecord, List.append_assoc]

/-- Inside a github-scoped block, a run of lines containing no `Host` line
only updates the `identityFile` variable, last `IdentityFile` line winning;
nothing is emitted. -/
theorem scanFold_body :
    ∀ (body : List String) (i : Option String) (A : List SSHConnection),
      (∀ l ∈ body, isHostLine l = false) →
      List.foldl scanStep ⟨some ("github.com"), i, A⟩ body
        = ⟨some ("github.com"), trackId i body, A⟩ := by
  intro body
  induction body with
  | nil => intro i A _; rfl
  | cons l t ih =>
    intro i A hnh
    have hl : isHostLine l = false := hnh l (by simp)
    have ht : ∀ x ∈ t, isHostLine x = false := fun x hx => hnh x (by simp [hx])
    rw [List.foldl_cons]
    by_cases hid : isIdLine l = true
    · have : scanStep ⟨some ("github.com"), i, A⟩ l
          = ⟨some ("github.com"), arg1 l, A⟩ := by
        simp [scanStep, hl, hid]
      rw [this, ih _ _ ht, trackId]
      simp [hid, trackId]
    · have : scanStep ⟨some ("github.com"), i, A⟩ l
          = ⟨some ("github.com"), i, A⟩ := by
        simp [scanStep, hl, hid]
      rw [this, ih _ _ ht, trackId]
      simp [hid, trackId]

/-- Before any `Host` line has been seen, non-`Host` lines are completely
inert for the scan loop. -/
theorem scanFold_nonhost_init :
    ∀ (pre : List String), (∀ l ∈ pre, isHostLine l = false) →
      List.foldl scanStep ⟨none, none, []⟩ pre = ⟨none, none, []⟩ := by
  intro pre
  induction pre with
  | nil => intro _; rfl
  | cons l t ih =>
    intro hnh
    have hl : isHostLine l = false := hnh l (by simp)
    rw [List.foldl_cons]
    have : scanStep ⟨none, none, []⟩ l = ⟨none, none, []⟩ := by
      simp [scanStep, hl]
    rw [this, ih (fun x hx => hnh x (by simp [hx]))]

/-- The `identityFile` tracker equals the argument of the last
`IdentityFile` line when the body has one, and keeps its initial value
otherwise. -/
theorem trackId_eq_lastIdArg :
    ∀ (body : List String) (i : Option String),
      trackId i body
        = (match body.reverse.find? isIdLine with
           | some l => arg1 l
           | none => i) := by
  intro body
  induction body with
  | nil => intro i; rfl
  | cons l t ih =>
    intro i
    rw [trackId, List.foldl_cons, List.reverse_cons, List.find?_append]
    have : trackId (if isIdLine l then arg1 l else i) t
        = (match t.reverse.find? isIdLine with
           | some m => arg1 m
           | none => if isIdLine l then arg1 l else i) := ih _
    rw [show List.foldl (fun o x => if isIdLine x then arg1 x else o)
        (if isIdLine l then arg1 l else i) t
        = trackId (if isIdLine l then arg1 l else i) t from rfl, this]
    cases hf : t.reverse.find? isIdLine with
    | some m => simp [Option.or]
    | none =>
      by_cases hid : isIdLine l = true
      · simp [Option.or, List.find?, hid]
      · simp [Option.or, List.find?, hid]

/-! ### Inertness of a `Host`-free prefix -/

theorem hostAfter_nonhost {l : String} (h : isHostLine l = false) (b : Bool) :
    hostAfter b l = b := by
  simp [hostAfter, h]

theorem isActiveAux_nonhost_pre (kf : Option String) :
    ∀ (pre rest : List String), (∀ l ∈ pre, isHostLine l = false) →
      isActiveAux kf false (pre ++ rest) = isActiveAux kf false rest := by
  intro pre
  induction pre with
  | nil => intro rest _; rfl
  | cons l t ih =>
    intro rest hnh
    have hl : isHostLine l = false := hnh l (by simp)
    rw [List.cons_append, isActiveAux, hostAfter_nonhost hl]
    simp only [Bool.false_and, if_neg (by simp : ¬ (false = true))]
    exact ih rest (fun x hx => hnh x (by simp [hx]))

theorem replaceFirstId_nonhost_pre (k : String) :
    ∀ (pre rest : List String), (∀ l ∈ pre, isHostLine l = false) →
      replaceFirstId k false (pre ++ rest)
        = (replaceFirstId k false rest).map (fun r => pre ++ r) := by
  intro pre
  induction pre with
  | nil =>
    intro rest _
    rw [List.nil_append]
    cases replaceFirstId k false rest <;> simp
  | cons l t ih =>
    intro rest hnh
    have hl : isHostLine l = false := hnh l (by simp)
    rw [List.cons_append, replaceFirstId, hostAfter_nonhost hl]
    simp only [Bool.false_and, if_neg (by simp : ¬ (false = true))]
    rw [ih rest (fun x hx => hnh x (by simp [hx]))]
    cases replaceFirstId k false rest <;> simp

/-! ### Lemmas about the merge of `getChildren` -/

/-- The dedup loop preserves distinctness of the `keyFile` fields. -/
theorem mergeFold_nodup :
    ∀ (ds acc : List SSHConnection),
      (acc.map (fun r => r.keyFile)).Nodup →
      ((ds.foldl mergeStep acc).map (fun r => r.keyFile)).Nodup := by
  intro ds
  induction ds with
  | nil => intro acc h; exact h
  | cons c t ih =>
    intro acc h
    rw [List.foldl_cons]
    by_cases hc : acc.any (fun e => e.keyFile == c.keyFile) = true
    · rw [show mergeStep acc c = acc from by simp [mergeStep, hc]]
      exact ih acc h
    · rw [show mergeStep acc c = acc ++ [c] from by simp [mergeStep, hc]]
      refine ih _ ?_
      rw [List.map_append, List.nodup_append]
      refine ⟨h, by simp, ?_⟩
      intro x hx
      simp only [List.map_cons, List.map_nil, List.mem_singleton]
      intro hxc
      subst hxc
      obtain ⟨r, hr, hrx⟩ := List.mem_map.mp hx
      have hall : ∀ x ∈ acc, ¬ x.keyFile = c.keyFile := by simpa using hc
      exact hall r hr (by simpa using hrx)

/-- The dedup loop appends a subsequence of the discovered records, none of
whose `keyFile`s occur in the starting accumulator. -/
theorem mergeFold_structure :
    ∀ (ds acc : List SSHConnection),
      ∃ ks, ds.foldl mergeStep acc = acc ++ ks ∧ ks.Sublist ds
        ∧ ∀ d ∈ ks, ¬ (d.keyFile ∈ acc.map (fun r => r.keyFile)) := by
  intro ds
  induction ds with
  | nil => intro acc; exact ⟨[], by simp, List.nil_sublist _, by simp⟩
  | cons c t ih =>
    intro acc
    rw [List.foldl_cons]
    by_cases hc : acc.any (fun e => e.keyFile == c.keyFile) = true
    · rw [show mergeStep acc c = acc from by simp [mergeStep, hc]]
      obtain ⟨ks, heq, hsub, hnot⟩ := ih acc
      exact ⟨ks, heq, hsub.cons c, hnot⟩
    · rw [show mergeStep acc c = acc ++ [c] from by simp [mergeStep, hc]]
      obtain ⟨ks, heq, hsub, hnot⟩ := ih (acc ++ [c])
      refine ⟨c :: ks, by rw [heq]; simp, hsub.cons₂ c, ?_⟩
      intro d hd
      rcases List.mem_cons.mp hd with rfl | hdks
      · intro hmem
        obtain ⟨r, hr, hrd⟩ := List.mem_map.mp hmem
        have hall : ∀ x ∈ acc, ¬ x.keyFile = d.keyFile := by simpa using hc
        exact hall r hr hrd
      · intro hmem
        exact hnot d hdks (by simp [hmem])

/-! ### Round-trip lemmas for `split(/\r?\n/)` and `join('\n')` -/

theorem splitNl_ne_nil : ∀ (l : List Char), splitNl l ≠ [] := by
  intro l
  induction l with
  | nil => simp [splitNl]
  | cons c t ih =>
    rw [splitNl]
    by_cases hc : c = '\n'
    · simp [hc]
    · rw [if_neg hc]
      cases hs : splitNl t with
      | nil => simp
      | cons p ps => simp

/-- Every character of every piece of `splitNl l` is a non-newline
character of `l`. -/
theorem splitNl_chars :
    ∀ (l : List Char) (p : List Char), p ∈ splitNl l → ∀ c ∈ p, c ∈ l ∧ c ≠ '\n' := by
  intro l
  induction l with
  | nil =>
    intro p hp c hc
    simp [splitNl] at hp
    subst hp
    simp at hc
  | cons d t ih =>
    intro p hp c hc
    rw [splitNl] at hp
    by_cases hd : d = '\n'
    · rw [if_pos hd] at hp
      rcases List.mem_cons.mp hp with rfl | hp'
      · simp at hc
      · obtain ⟨hct, hcn⟩ := ih p hp' c hc
        exact ⟨by simp [hct], hcn⟩
    · rw [if_neg hd] at hp
      cases hs : splitNl t with
      | nil => exact absurd hs (splitNl_ne_nil t)
      | cons q qs =>
        rw [hs] at hp
        rcases List.mem_cons.mp hp with rfl | hp'
        · rcases List.mem_cons.mp hc with rfl | hcq
          · exact ⟨by simp, hd⟩
          · obtain ⟨hct, hcn⟩ := ih q (by rw [hs]; simp) c hcq
            exact ⟨by simp [hct], hcn⟩
        · obtain ⟨hct, hcn⟩ := ih p (by rw [hs]; simp [hp']) c hc
          exact ⟨by simp [hct], hcn⟩

theorem stripTrailCR_chars {p : List Char} {c : Char} (hc : c ∈ stripTrailCR p) : c ∈ p := by
  unfold stripTrailCR at hc
  by_cases h : p.getLast? = some '\r'
  · rw [if_pos h] at hc
    exact (List.dropLast_sublist p).mem hc
  · rwa [if_neg h] at hc

theorem stripCRs_ne_nil : ∀ (ps : List (List Char)), ps ≠ [] → stripCRs ps ≠ [] := by
  intro ps h
  match ps with
  | [] => exact absurd rfl h
  | [p] => simp [stripCRs]
  | p :: q :: t => simp [stripCRs]

/-- Characters of the pieces survive the carriage-return stripping. -/
theorem stripCRs_chars :
    ∀ (ps : List (List Char)) (p : List Char), p ∈ stripCRs ps → ∀ c ∈ p, ∃ q ∈ ps, c ∈ q := by
  intro ps
  induction ps with
  | nil => intro p hp; simp [stripCRs] at hp
  | cons q t ih =>
    intro p hp c hc
    match t, hp with
    | [], hp =>
      have : p = q := by simpa [stripCRs] using hp
      exact ⟨q, by simp, this ▸ hc⟩
    | r :: t', hp =>
      rw [stripCRs] at hp
      rcases List.mem_cons.mp hp with rfl | hp'
      · exact ⟨q, by simp, stripTrailCR_chars hc⟩
      · obtain ⟨w, hw, hcw⟩ := ih p hp' c hc
        exact ⟨w, by simp [List.mem_cons.mp hw], hcw⟩

theorem stripTrailCR_of_no_cr {p : List Char} (h : ∀ c ∈ p, c ≠ '\r') :
    stripTrailCR p = p := by
  unfold stripTrailCR
  rw [if_neg]
  intro hlast
  exact h '\r' (List.mem_of_getLast?_eq_some hlast) rfl

theorem stripCRs_of_no_cr :
    ∀ (ps : List (List Char)), (∀ p ∈ ps, ∀ c ∈ p, c ≠ '\r') → stripCRs ps = ps := by
  intro ps
  induction ps with
  | nil => intro _; rfl
  | cons q t ih =>
    intro h
    match t with
    | [] => rfl
    | r :: t' =>
      rw [stripCRs, stripTrailCR_of_no_cr (h q (by simp)),
        ih (fun p hp c hc => h p (by simp [List.mem_cons.mp hp]) c hc)]

/-- Splitting a newline-free piece yields that single piece. -/
theorem splitNl_of_no_nl : ∀ (p : List Char), (∀ c ∈ p, c ≠ '\n') → splitNl p = [p] := by
  intro p
  induction p with
  | nil => intro _; rfl
  | cons c t ih =>
    intro h
    rw [splitNl, if_neg (h c (by simp)), ih (fun x hx => h x (by simp [hx]))]

/-- Splitting `p ++ '\n' :: r` peels off the newline-free piece `p`. -/
theorem splitNl_append_nl :
    ∀ (p r : List Char), (∀ c ∈ p, c ≠ '\n') → splitNl (p ++ '\n' :: r) = p :: splitNl r := by
  intro p
  induction p with
  | nil => intro r _; simp [splitNl]
  | cons c t ih =>
    intro r h
    rw [List.cons_append, splitNl, if_neg (h c (by simp)),
      ih r (fun x hx => h x (by simp [hx]))]

/-- Round trip: splitting a join of newline-free pieces recovers them. -/
theorem splitNl_joinNl :
    ∀ (ps : List (List Char)), ps ≠ [] → (∀ p ∈ ps, ∀ c ∈ p, c ≠ '\n') →
      splitNl (joinNl ps) = ps := by
  intro ps
  induction ps with
  | nil => intro h _; exact absurd rfl h
  | cons p t ih =>
    intro _ h
    match t with
    | [] => exact splitNl_of_no_nl p (h p (by simp))
    | q :: t' =>
      rw [joinNl, splitNl_append_nl p _ (h p (by simp)),
        ih (by simp) (fun x hx c hc => h x (by simp [List.mem_cons.mp hx]) c hc)]

/-- Full round trip at the `String` level: joining with `'\n'` and
re-splitting on `/\r?\n/` is the identity on non-empty line sequences whose
lines contain no line terminators. -/
theorem splitLines_joinLines (ls : List String) (h0 : ls ≠ [])
    (h : ∀ s ∈ ls, ∀ c ∈ s.data, c ≠ '\n' ∧ c ≠ '\r') :
    splitLines (joinLines ls) = ls := by
  unfold splitLines joinLines
  have hdata : (⟨joinNl (ls.map String.data)⟩ : String).data = joinNl (ls.map String.data) := rfl
  rw [hdata]
  have hmem : ∀ p ∈ ls.map String.data, ∀ c ∈ p, c ≠ '\n' := by
    intro p hp c hc
    obtain ⟨s, hs, rfl⟩ := List.mem_map.mp hp
    exact (h s hs c hc).1
  rw [splitNl_joinNl _ (by simpa using h0) hmem]
  rw [stripCRs_of_no_cr _ (by
    intro p hp c hc
    obtain ⟨s, hs, rfl⟩ := List.mem_map.mp hp
    exact (h s hs c hc).2)]
  rw [List.map_map]
  have : (fun l => (⟨l⟩ : String)) ∘ String.data = id := by
    funext s
    rfl
  rw [this, List.map_id]

/-! ### Assembled helper facts -/

theorem splitLines_chars (s : String) :
    ∀ p ∈ splitLines s, ∀ c ∈ p.data, c ∈ s.data ∧ c ≠ '\n' := by
  intro p hp c hc
  unfold splitLines at hp
  obtain ⟨l, hl, rfl⟩ := List.mem_map.mp hp
  obtain ⟨q, hq, hcq⟩ := stripCRs_chars _ l hl c hc
  exact splitNl_chars s.data q hq c hcq

theorem splitLines_ne_nil (s : String) : splitLines s ≠ [] := by
  unfold splitLines
  intro h
  exact stripCRs_ne_nil _ (splitNl_ne_nil s.data) (List.map_eq_nil_iff.mp h)

/-- Every line of the mutated document is a line of the input document or
one of the two fresh lines. -/
theorem setActiveLines_mem (k : String) (ls : List String) :
    ∀ p ∈ setActiveLines k ls, p ∈ ls ∨ p = ghHostLine ∨ p = newIdLine k := by
  intro p hp
  unfold setActiveLines at hp
  cases hr : replaceFirstId k false ls with
  | some r =>
    rw [hr] at hp
    obtain ⟨i, hi, hid, rfl⟩ := replaceFirstId_shape k false ls r hr
    rcases List.mem_or_eq_of_mem_set hp with h | h
    · exact Or.inl h
    · exact Or.inr (Or.inr h)
  | none =>
    rw [hr] at hp
    rcases List.mem_append.mp hp with h | h
    · exact Or.inl h
    · rcases List.mem_cons.mp h with rfl | h'
      · exact Or.inr (Or.inl rfl)
      · exact Or.inr (Or.inr (by simpa using h'))

theorem setActiveLines_ne_nil (k : String) (ls : List String) (h : ls ≠ []) :
    setActiveLines k ls ≠ [] := by
  unfold setActiveLines
  cases hr : replaceFirstId k false ls with
  | some r =>
    obtain ⟨i, hi, hid, rfl⟩ := replaceFirstId_shape k false ls r hr
    simpa using h
  | none => simp

theorem ghHostLine_chars : ∀ c ∈ ghHostLine.data, c ≠ '\n' ∧ c ≠ '\r' := by decide

theorem newIdLine_chars (k : String) (hk : ∀ c ∈ k.data, c ≠ '\n' ∧ c ≠ '\r') :
    ∀ c ∈ (newIdLine k).data, c ≠ '\n' ∧ c ≠ '\r' := by
  intro c hc
  have hsplit : (newIdLine k).data = "    IdentityFile ".data ++ k.data := rfl
  rw [hsplit] at hc
  rcases List.mem_append.mp hc with h | h
  · constructor <;> (intro hcc; subst hcc; revert h; decide)
  · exact hk c h

/-- Line-level idempotence of the mutation. -/
theorem setActiveLines_idem (k : String) (ls : List String) :
    setActiveLines k (setActiveLines k ls) = setActiveLines k ls := by
  cases hr : replaceFirstId k false ls with
  | some r =>
    have h1 : setActiveLines k ls = r := by simp only [setActiveLines, hr]
    rw [h1]
    simp only [setActiveLines, replaceFirstId_idem k false ls r hr]
  | none =>
    have h1 : setActiveLines k ls = ls ++ [ghHostLine, newIdLine k] := by
      simp only [setActiveLines, hr]
    rw [h1]
    simp only [setActiveLines, replaceFirstId_none_app k false ls hr]

/-- Raw-string idempotence, provided the document carries no carriage
returns and the key path carries no line terminators. -/
theorem setActiveStr_idem_of_clean (k s : String)
    (hs : ∀ c ∈ s.data, c ≠ '\r') (hk : ∀ c ∈ k.data, c ≠ '\n' ∧ c ≠ '\r') :
    setActiveStr k (setActiveStr k s) = setActiveStr k s := by
  have hlines : ∀ p ∈ splitLines s, ∀ c ∈ p.data, c ≠ '\n' ∧ c ≠ '\r' := by
    intro p hp c hc
    obtain ⟨hcs, hcn⟩ := splitLines_chars s p hp c hc
    exact ⟨hcn, hs c hcs⟩
  have hres : ∀ p ∈ setActiveLines k (splitLines s), ∀ c ∈ p.data, c ≠ '\n' ∧ c ≠ '\r' := by
    intro p hp c hc
    rcases setActiveLines_mem k (splitLines s) p hp with h | h | h
    · exact hlines p h c hc
    · subst h; exact ghHostLine_chars c hc
    · subst h; exact newIdLine_chars k hk c hc
  have hround : splitLines (setActiveStr k s) = setActiveLines k (splitLines s) := by
    unfold setActiveStr
    exact splitLines_joinLines _ (setActiveLines_ne_nil k _ (splitLines_ne_nil s)) hres
  show joinLines (setActiveLines k (splitLines (setActiveStr k s))) = setActiveStr k s
  rw [hround, setActiveLines_idem]
  rfl

theorem scanFrom_split (st : ScanSt) (l1 l2 : List String) :
    scanFrom st (l1 ++ l2) = scanFrom (List.foldl scanStep st l1) l2 := by
  unfold scanFrom
  rw [List.foldl_append]

/-- State of the scan loop right after a github-scoped block consisting of
a `Host` line `gh` and a `Host`-free body whose last `IdentityFile`
argument is `a`: the records already emitted are exactly those of the
prefix, and the tracked identity file is `a`. -/
theorem scanFold_block (pre body : List String) (gh a : String)
    (hgh : isHostLine gh = true) (harg : arg1 gh = some ("github.com"))
    (hbody : ∀ l ∈ body, isHostLine l = false) (ha : lastIdArg body = some a) :
    List.foldl scanStep ⟨none, none, []⟩ (pre ++ gh :: body)
      = ⟨some ("github.com"), some a, scanLines pre⟩ := by
  rw [List.foldl_append, List.foldl_cons]
  rw [scanStep_hostline _ gh hgh, harg]
  rw [scanFold_body body none _ hbody]
  have htrack : trackId none body = some a := by
    rw [trackId_eq_lastIdArg]
    exact ha
  rw [htrack]
  rfl

/-! ### Claim C1 -/

/-- Claim C1, counterexample to the claim as stated.  In the document
`['Host github.com', 'Host example.org', 'Host github.com',
'IdentityFile /old']` the FIRST github-scoped block (line 0, with empty
body) contains no `IdentityFile` line, so the claim demands that a fresh
block be appended; the code instead rewrites the `IdentityFile` line of the
SECOND github-scoped block, because the `inGitHubHost` flag merely tracks
the most recent `Host` line. -/
theorem setActive_first_block_counterexample :
    setActiveLines ("/k")
        ["Host github.com", "Host example.org", "Host github.com", "IdentityFile /old"]
      = ["Host github.com", "Host example.org", "Host github.com", "    IdentityFile /k"]
    ∧ claimSetActive ("/k")
        ["Host github.com", "Host example.org", "Host github.com", "IdentityFile /old"]
      = ["Host github.com", "Host example.org", "Host github.com", "IdentityFile /old",
         "Host github.com", "    IdentityFile /k"]
    ∧ setActiveLines ("/k")
        ["Host github.com", "Host example.org", "Host github.com", "IdentityFile /old"]
      ≠ claimSetActive ("/k")
        ["Host github.com", "Host example.org", "Host github.com", "IdentityFile /old"] :=
  ⟨by decide, by decide, by decide⟩

/-- Claim C1 (amended): `setActive(k)` replaces the first github-scoped
`IdentityFile` line of the document — the first `IdentityFile` line lying
in ANY github-scoped block, not necessarily the first such block — by the
fixed 4-space-indented `IdentityFile k` line, and appends the
`Host github.com` / `    IdentityFile k` block at the end exactly when no
github-scoped `IdentityFile` line exists anywhere in the document. -/
theorem setActive_targets_first_github_scoped_idline (k : String) (lines : List String) :
    setActiveLines k lines = setActiveSpec k lines := by
  unfold setActiveSpec firstGhIdIdx
  simp only [setActiveLines, replaceFirstId_eq_findIdx]
  cases findIdxP ghIdHit (ghAnnot false lines) <;> simp

/-! ### Claim C2 -/

/-- Claim C2, counterexample to the claim as stated: `setActive` on a
missing configuration file does NOT create the file — the code returns
early on `!fs.existsSync(sshConfigPath)`, so no document is produced. -/
theorem setActive_missing_file_counterexample : setActiveFile ("/k") none = none := rfl

/-- Claim C2 (amended): when the configuration file does not exist,
`scan()` returns the empty sequence, `isActive` returns false for every
candidate, and `setActive(k)` is a no-op that does NOT create the file
(no engine operation ever creates it). -/
theorem missing_file_degrades_without_create (k : String) (kf : Option String) :
    scanFile none = [] ∧ isActiveFile kf none = false ∧ setActiveFile k none = none :=
  ⟨rfl, rfl, rfl⟩

/-! ### Claim C3 -/

/-- Claim C3, counterexample to the claim as stated: when the managed list
itself contains two records with the same `keyFile`, the merged view keeps
both of them — the dedup test is only applied to discovered records. -/
theorem merge_duplicate_managed_counterexample :
    ¬ ((mergeIdentities
        [⟨"a", "github.com", "git", some 22, some ("/k"), none, none, none⟩,
         ⟨"b", "github.com", "git", some 22, some ("/k"), none, none, none⟩]
        (scanStr "")).map (fun r => r.keyFile)).Nodup := by decide

/-- Claim C3 (amended): provided the managed list itself has pairwise
distinct `keyFile`s, the merged view has pairwise distinct `keyFile`s; the
result is the managed records, in order and with their own fields,
followed by a subsequence of the discovered records (in scan order) none
of whose `keyFile`s occurs in the managed list — so on a shared `keyFile`
the managed record wins. -/
theorem merge_dedup_managed_wins (managed : List SSHConnection) (doc : String)
    (hm : (managed.map (fun r => r.keyFile)).Nodup) :
    ((mergeIdentities managed (scanStr doc)).map (fun r => r.keyFile)).Nodup
    ∧ ∃ ks, mergeIdentities managed (scanStr doc) = managed ++ ks
        ∧ ks.Sublist (scanStr doc)
        ∧ ∀ d ∈ ks, ¬ (d.keyFile ∈ managed.map (fun r => r.keyFile)) :=
  ⟨mergeFold_nodup (scanStr doc) managed hm, mergeFold_structure (scanStr doc) managed⟩

/-- Claim C3 witness: a managed record and a discovered record share the
`keyFile` `/k`; the merged view keeps only the managed record. -/
theorem merge_dedup_managed_wins_witness :
    (([⟨"w", "github.com", "git", some 22, some ("/k"), some ("N"), some ("E"), none⟩]
        : List SSHConnection).map (fun r => r.keyFile)).Nodup
    ∧ (((mergeIdentities
          [⟨"w", "github.com", "git", some 22, some ("/k"), some ("N"), some ("E"), none⟩]
          (scanStr "Host github.com\nIdentityFile /k")).map (fun r => r.keyFile)).Nodup
        ∧ ∃ ks, mergeIdentities
              [⟨"w", "github.com", "git", some 22, some ("/k"), some ("N"), some ("E"), none⟩]
              (scanStr "Host github.com\nIdentityFile /k")
            = [⟨"w", "github.com", "git", some 22, some ("/k"), some ("N"), some ("E"), none⟩] ++ ks
          ∧ ks.Sublist (scanStr "Host github.com\nIdentityFile /k")
          ∧ ∀ d ∈ ks, ¬ (d.keyFile
              ∈ ([⟨"w", "github.com", "git", some 22, some ("/k"), some ("N"), some ("E"), none⟩]
                  : List SSHConnection).map (fun r => r.keyFile))) :=
  ⟨by decide,
    merge_dedup_managed_wins
      [⟨"w", "github.com", "git", some 22, some ("/k"), some ("N"), some ("E"), none⟩]
      ("Host github.com\nIdentityFile /k") (by decide)⟩

/-! ### Claim C4 -/

/-- Claim C4, counterexample to the claim as stated.  In the document
`['Host github.com', 'Host example.org', 'Host github.com',
'IdentityFile /k']` the FIRST github-scoped block contains no
`IdentityFile` directive, so the claim demands `isActive('/k') = false`;
the code answers true, because it short-circuits on the first
`IdentityFile` line seen while the most recent `Host` line is github
scoped — here the line of the SECOND github-scoped block. -/
theorem isActive_first_block_counterexample :
    isActiveLines (some ("/k"))
        ["Host github.com", "Host example.org", "Host github.com", "IdentityFile /k"] = true
    ∧ claimIsActive ("/k")
        ["Host github.com", "Host example.org", "Host github.com", "IdentityFile /k"] = false :=
  ⟨by decide, by decide⟩

/-- Claim C4 (amended): `isActive(k)` returns true exactly when the first
github-scoped `IdentityFile` line of the document — in whichever
github-scoped block it lies — exists and its argument equals `k` by exact
string comparison; it returns false when the file is missing or no
github-scoped `IdentityFile` line exists. -/
theorem isActive_checks_first_github_scoped_idline (kf : Option String) (lines : List String) :
    isActiveLines kf lines = isActiveSpec kf lines ∧ isActiveFile kf none = false := by
  refine ⟨?_, rfl⟩
  unfold isActiveLines isActiveSpec
  exact isActiveAux_eq_find kf false lines

/-! ### Claim C5 -/

/-- Claim C5, counterexample to the claim as stated: on the empty document
the produced text is NOT `Host github.com\n    IdentityFile ...` — the
empty document splits into one empty line which is preserved, so the
result starts with an empty line. -/
theorem setActive_empty_doc_counterexample :
    setActiveStr ("/home/u/.ssh/id_work") ("")
      ≠ "Host github.com\n    IdentityFile /home/u/.ssh/id_work" := by decide

/-- Claim C5 (amended): on the empty document, `setActive` produces
`"\nHost github.com\n    IdentityFile /home/u/.ssh/id_work"` (with a
leading empty line), and `scan()` of that result returns exactly one
record, with name `id_work` and keyFile `/home/u/.ssh/id_work`. -/
theorem setActive_scan_empty_doc_example :
    setActiveStr ("/home/u/.ssh/id_work") ("")
      = "\nHost github.com\n    IdentityFile /home/u/.ssh/id_work"
    ∧ scanStr (setActiveStr ("/home/u/.ssh/id_work") (""))
      = [⟨"id_work", "github.com", "git", some 22, some ("/home/u/.ssh/id_work"),
          none, none, none⟩] :=
  ⟨by decide, by decide⟩

/-! ### Claim C6 -/

/-- Claim C6: for a github-scoped block (`Host` line `gh` with pattern
`github.com`, body without further `Host` lines) containing more than one
`IdentityFile` directive, `scan()` emits exactly one discovered record for
the block, whose keyFile is the argument `a` of the LAST `IdentityFile`
directive of the block — whether the block ends at the end of the file or
at a following `Host` line `nh`. -/
theorem scan_one_record_last_idfile_wins (pre body rest : List String) (gh nh a : String)
    (hgh : isHostLine gh = true) (harg : arg1 gh = some ("github.com"))
    (hbody : ∀ l ∈ body, isHostLine l = false)
    (_hcount : 2 ≤ body.countP (fun l => isIdLine l))
    (ha : lastIdArg body = some a)
    (hnh : isHostLine nh = true) :
    scanLines (pre ++ gh :: body) = scanLines pre ++ [mkDiscovered a]
    ∧ scanLines (pre ++ gh :: (body ++ nh :: rest))
        = scanLines pre ++ mkDiscovered a :: scanFrom ⟨arg1 nh, none, []⟩ rest := by
  constructor
  · show scanFrom ⟨none, none, []⟩ (pre ++ gh :: body) = _
    unfold scanFrom
    rw [scanFold_block pre body gh a hgh harg hbody ha]
    simp [pendingRecord]
  · show scanFrom ⟨none, none, []⟩ (pre ++ gh :: (body ++ nh :: rest)) = _
    have hsplit : pre ++ gh :: (body ++ nh :: rest) = (pre ++ gh :: body) ++ nh :: rest := by
      simp
    rw [hsplit, scanFrom_split, scanFold_block pre body gh a hgh harg hbody ha]
    have hstep : scanFrom ⟨some ("github.com"), some a, scanLines pre⟩ (nh :: rest)
        = scanFrom (scanStep ⟨some ("github.com"), some a, scanLines pre⟩ nh) rest := rfl
    rw [hstep, scanStep_hostline _ nh hnh]
    have hpend : pendingRecord ⟨some ("github.com"), some a, scanLines pre⟩
        = [mkDiscovered a] := by simp [pendingRecord]
    rw [show (⟨some ("github.com"), some a, scanLines pre⟩ : ScanSt).acc = scanLines pre
      from rfl] at *
    rw [hpend, scanFrom_acc]
    simp

/-- Claim C6 witness: the block `Host github.com` /
`IdentityFile /a` / `IdentityFile /b` yields one record, for `/b`. -/
theorem scan_one_record_last_idfile_wins_witness :
    isHostLine ("Host github.com") = true
    ∧ arg1 ("Host github.com") = some ("github.com")
    ∧ (∀ l ∈ ["IdentityFile /a", "IdentityFile /b"], isHostLine l = false)
    ∧ 2 ≤ List.countP (fun l => isIdLine l) ["IdentityFile /a", "IdentityFile /b"]
    ∧ lastIdArg ["IdentityFile /a", "IdentityFile /b"] = some ("/b")
    ∧ isHostLine ("Host gitlab.com") = true
    ∧ scanLines (["# comment"] ++ "Host github.com" :: ["IdentityFile /a", "IdentityFile /b"])
        = scanLines ["# comment"] ++ [mkDiscovered ("/b")]
    ∧ scanLines (["# comment"] ++ "Host github.com"
          :: (["IdentityFile /a", "IdentityFile /b"] ++ "Host gitlab.com" :: ["IdentityFile /c"]))
        = scanLines ["# comment"]
            ++ mkDiscovered ("/b") :: scanFrom ⟨arg1 ("Host gitlab.com"), none, []⟩ ["IdentityFile /c"] :=
  ⟨by decide, by decide, by decide, by decide, by decide, by decide,
    (scan_one_record_last_idfile_wins ["# comment"] ["IdentityFile /a", "IdentityFile /b"]
      ["IdentityFile /c"] ("Host github.com") ("Host gitlab.com") ("/b")
      (by decide) (by decide) (by decide) (by decide) (by decide) (by decide)).1,
    (scan_one_record_last_idfile_wins ["# comment"] ["IdentityFile /a", "IdentityFile /b"]
      ["IdentityFile /c"] ("Host github.com") ("Host gitlab.com") ("/b")
      (by decide) (by decide) (by decide) (by decide) (by decide) (by decide)).2⟩

/-! ### Claim C7 -/

/-- Claim C7, counterexample to the claim as stated: starting from the
document `"a\r"` (a lone carriage return not followed by a newline), the
first `setActive` keeps the `\r` and appends the block; the second run
splits the now-formed `\r\n` pair away, so the two documents differ — the
line-ending normalisation makes the raw document drift once. -/
theorem setActive_twice_cr_counterexample :
    setActiveStr ("/k") (setActiveStr ("/k") ("a\r")) ≠ setActiveStr ("/k") ("a\r") := by decide

/-- Claim C7 (amended): `setActive(k)` applied twice produces the same
line sequence as applied once, for every starting line sequence; at the
raw-document level the idempotence additionally requires that the starting
document contains no carriage-return character and that `k` contains no
line terminator (otherwise the global `\r?\n` normalisation can make the
second run differ from the first). -/
theorem setActive_idempotent_amended :
    (∀ (k : String) (ls : List String),
      setActiveLines k (setActiveLines k ls) = setActiveLines k ls)
    ∧ ∀ (k s : String), (∀ c ∈ s.data, c ≠ '\r') → (∀ c ∈ k.data, c ≠ '\n' ∧ c ≠ '\r') →
        setActiveStr k (setActiveStr k s) = setActiveStr k s :=
  ⟨setActiveLines_idem, setActiveStr_idem_of_clean⟩

/-- Claim C7 witness: a concrete carriage-return-free document and key. -/
theorem setActive_idempotent_amended_witness :
    (∀ c ∈ ("Host github.com\nIdentityFile /a").data, c ≠ '\r')
    ∧ (∀ c ∈ ("/k").data, c ≠ '\n' ∧ c ≠ '\r')
    ∧ setActiveStr ("/k") (setActiveStr ("/k") ("Host github.com\nIdentityFile /a"))
        = setActiveStr ("/k") ("Host github.com\nIdentityFile /a") :=
  ⟨by decide, by decide,
    setActive_idempotent_amended.2 ("/k") ("Host github.com\nIdentityFile /a")
      (by decide) (by decide)⟩

/-! ### Claim C8 -/

/-- Claim C8: `setActive(k)` either replaces exactly one line — an
`IdentityFile` line — of the document by `    IdentityFile k`, leaving
every other line byte-identical at its original position, or appends the
two-line block `Host github.com` / `    IdentityFile k` at the end of the
unchanged document. -/
theorem setActive_frame (k : String) (ls : List String) :
    (∃ i, i < ls.length ∧ isIdLine (ls.getD i "") = true
      ∧ setActiveLines k ls = ls.set i (newIdLine k))
    ∨ setActiveLines k ls = ls ++ [ghHostLine, newIdLine k] := by
  cases hr : replaceFirstId k false ls with
  | some r =>
    obtain ⟨i, hi, hid, rfl⟩ := replaceFirstId_shape k false ls r hr
    exact Or.inl ⟨i, hi, hid, by simp only [setActiveLines, hr]⟩
  | none => exact Or.inr (by simp only [setActiveLines, hr])

/-! ### Claim C9 -/

/-- Claim C9: a trailing github-scoped block — a github `Host` line `gh`
followed by a `Host`-free body with tracked `IdentityFile` argument `a`,
reaching the end of the file — is flushed: `scan()` still emits its record,
exactly as a mid-file `Host` boundary would. -/
theorem scan_trailing_block_flush (pre body : List String) (gh a : String)
    (hgh : isHostLine gh = true) (harg : arg1 gh = some ("github.com"))
    (hbody : ∀ l ∈ body, isHostLine l = false)
    (ha : lastIdArg body = some a) :
    scanLines (pre ++ gh :: body) = scanLines pre ++ [mkDiscovered a] := by
  show scanFrom ⟨none, none, []⟩ (pre ++ gh :: body) = _
  unfold scanFrom
  rw [scanFold_block pre body gh a hgh harg hbody ha]
  simp [pendingRecord]

/-- Claim C9 witness: a document ending in a github block with a single
`IdentityFile` line and no further `Host` line still yields the record. -/
theorem scan_trailing_block_flush_witness :
    isHostLine ("Host github.com") = true
    ∧ arg1 ("Host github.com") = some ("github.com")
    ∧ (∀ l ∈ ["    IdentityFile /a"], isHostLine l = false)
    ∧ lastIdArg ["    IdentityFile /a"] = some ("/a")
    ∧ scanLines (["# comment"] ++ "Host github.com" :: ["    IdentityFile /a"])
        = scanLines ["# comment"] ++ [mkDiscovered ("/a")] :=
  ⟨by decide, by decide, by decide, by decide,
    scan_trailing_block_flush ["# comment"] ["    IdentityFile /a"]
      ("Host github.com") ("/a") (by decide) (by decide) (by decide) (by decide)⟩

/-! ### Claim C10 -/

/-- Claim C10: lines before the first `Host` line of the document — in
particular any `IdentityFile` directive there — are inert for all three
operations: `scan()` emits nothing for them, `isActive` never compares the
candidate against them, and `setActive` re-emits them unchanged and never
rewrites them (each operation's host-tracking state starts as "no host
seen", which never equals the target host). -/
theorem pre_host_lines_inert (pre rest : List String) (k : String) (kf : Option String)
    (hpre : ∀ l ∈ pre, isHostLine l = false) :
    scanLines (pre ++ rest) = scanLines rest
    ∧ isActiveLines kf (pre ++ rest) = isActiveLines kf rest
    ∧ setActiveLines k (pre ++ rest) = pre ++ setActiveLines k rest := by
  refine ⟨?_, isActiveAux_nonhost_pre kf pre rest hpre, ?_⟩
  · show scanFrom ⟨none, none, []⟩ (pre ++ rest) = _
    rw [scanFrom_split, scanFold_nonhost_init pre hpre]
    rfl
  · cases hr : replaceFirstId k false rest with
    | some r =>
      have h1 : setActiveLines k rest = r := by simp only [setActiveLines, hr]
      have h2 : replaceFirstId k false (pre ++ rest) = some (pre ++ r) := by
        rw [replaceFirstId_nonhost_pre k pre rest hpre, hr]
        rfl
      rw [h1]
      simp only [setActiveLines, h2]
    | none =>
      have h1 : setActiveLines k rest = rest ++ [ghHostLine, newIdLine k] := by
        simp only [setActiveLines, hr]
      have h2 : replaceFirstId k false (pre ++ rest) = none := by
        rw [replaceFirstId_nonhost_pre k pre rest hpre, hr]
        rfl
      rw [h1]
      simp only [setActiveLines, h2, List.append_assoc]

/-- Claim C10 witness: an `IdentityFile` directive before any `Host` line
is invisible to scan and isActive and is preserved untouched by
setActive. -/
theorem pre_host_lines_inert_witness :
    (∀ l ∈ ["IdentityFile /x"], isHostLine l = false)
    ∧ scanLines (["IdentityFile /x"] ++ ["Host github.com", "IdentityFile /a"])
        = scanLines ["Host github.com", "IdentityFile /a"]
    ∧ isActiveLines (some ("/x")) (["IdentityFile /x"] ++ ["Host github.com", "IdentityFile /a"])
        = isActiveLines (some ("/x")) ["Host github.com", "IdentityFile /a"]
    ∧ setActiveLines ("/k") (["IdentityFile /x"] ++ ["Host github.com", "IdentityFile /a"])
        = ["IdentityFile /x"] ++ setActiveLines ("/k") ["Host github.com", "IdentityFile /a"] :=
  ⟨by decide,
    (pre_host_lines_inert ["IdentityFile /x"] ["Host github.com", "IdentityFile /a"]
      ("/k") (some ("/x")) (by decide)).1,
    (pre_host_lines_inert ["IdentityFile /x"] ["Host github.com", "IdentityFile /a"]
      ("/k") (some ("/x")) (by decide)).2.1,
    (pre_host_lines_inert ["IdentityFile /x"] ["Host github.com", "IdentityFile /a"]
      ("/k") (some ("/x")) (by decide)).2.2⟩
